import Mathlib

/-!
Verification of the `meu-ip` client-IP resolver (src/getClientIp.ts).

The source consists of:
* `regexes.ipv4` / `regexes.ipv6`: two anchored regular expressions;
* `isIp`: truthiness guard plus the disjunction of the two regex tests;
* `getClientIpFromXForwardedFor`: decomposes a comma-separated
  `x-forwarded-for` value, trims + port-strips each token, and returns the
  first token accepted by `isIp` (throwing a `TypeError` on truthy
  non-string input);
* `getClientIp`: an ordered cascade over thirteen headers.

The embedding below works on `List Char` / `String` and models the two
regexes by their languages, derived branch by branch from the patterns
(the derivations are documented at the definitions).  JavaScript values
passed to the decomposer are modelled by `JsVal` (with JS truthiness),
a thrown `TypeError` by `Except.error`, and JS `null` by `none`.
-/

/-- Character-list split on a single separator character, mirroring
JavaScript `String.prototype.split` with a one-character separator:
`splitSep ',' "a,,b" = ["a", "", "b"]` and `splitSep ',' "" = [""]`. -/
def splitSep (sep : Char) : List Char → List (List Char)
  | [] => [[]]
  | c :: rest =>
    if c = sep then [] :: splitSep sep rest
    else (c :: (splitSep sep rest).headD []) :: (splitSep sep rest).tail

/-- Inverse of `splitSep`: join character lists with a separator. -/
def joinSep (sep : Char) : List (List Char) → List Char
  | [] => []
  | [g] => g
  | g :: gs => g ++ sep :: joinSep sep gs

theorem joinSep_nil (sep : Char) : joinSep sep [] = [] := rfl

theorem joinSep_single (sep : Char) (g : List Char) : joinSep sep [g] = g := rfl

theorem joinSep_cons2 (sep : Char) (g g2 : List Char) (gs : List (List Char)) :
    joinSep sep (g :: g2 :: gs) = g ++ sep :: joinSep sep (g2 :: gs) := rfl

theorem splitSep_ne_nil (sep : Char) (l : List Char) : splitSep sep l ≠ [] := by
  cases l with
  | nil => simp [splitSep]
  | cons c rest =>
    simp only [splitSep]
    split <;> simp

theorem splitSep_no_sep (sep : Char) (l : List Char) (h : ∀ c ∈ l, c ≠ sep) :
    splitSep sep l = [l] := by
  induction l with
  | nil => rfl
  | cons c rest ih =>
    have hc : c ≠ sep := h c (by simp)
    have hr : splitSep sep rest = [rest] := ih (fun x hx => h x (by simp [hx]))
    simp [splitSep, hc, hr]

theorem splitSep_append (sep : Char) (a t : List Char) (h : ∀ c ∈ a, c ≠ sep) :
    splitSep sep (a ++ sep :: t) = a :: splitSep sep t := by
  induction a with
  | nil => simp [splitSep]
  | cons c a' ih =>
    have hc : c ≠ sep := h c (by simp)
    have hr := ih (fun x hx => h x (by simp [hx]))
    simp [splitSep, hc, hr]

theorem splitSep_joinSep (sep : Char) (gs : List (List Char)) (h0 : gs ≠ [])
    (h : ∀ g ∈ gs, ∀ c ∈ g, c ≠ sep) :
    splitSep sep (joinSep sep gs) = gs := by
  induction gs with
  | nil => exact absurd rfl h0
  | cons g gs' ih =>
    cases gs' with
    | nil => exact splitSep_no_sep sep g (h g (by simp))
    | cons g2 rest =>
      rw [joinSep_cons2,
        splitSep_append sep g _ (h g (by simp)),
        ih (by simp) (fun x hx c hc => h x (by simp [hx]) c hc)]

theorem joinSep_splitSep (sep : Char) (l : List Char) :
    joinSep sep (splitSep sep l) = l := by
  induction l with
  | nil => rfl
  | cons c rest ih =>
    obtain ⟨g, gs, hg⟩ : ∃ g gs, splitSep sep rest = g :: gs := by
      cases hr : splitSep sep rest with
      | nil => exact absurd hr (splitSep_ne_nil sep rest)
      | cons g gs => exact ⟨g, gs, rfl⟩
    by_cases hc : c = sep
    · simp only [splitSep, if_pos hc, hg]
      rw [joinSep_cons2 sep [] g gs]
      rw [hg] at ih
      simp [ih, hc]
    · simp only [splitSep, if_neg hc, hg]
      cases gs with
      | nil =>
        simp only [List.headD, List.tail, joinSep]
        rw [hg] at ih
        simp only [joinSep] at ih
        simp [ih]
      | cons g2 gs' =>
        simp only [List.headD, List.tail]
        rw [joinSep_cons2]
        rw [hg] at ih
        rw [joinSep_cons2] at ih
        simp [ih]

theorem mem_joinSep (sep : Char) (gs : List (List Char)) (c : Char)
    (h : c ∈ joinSep sep gs) : c = sep ∨ ∃ g ∈ gs, c ∈ g := by
  induction gs with
  | nil => simp [joinSep] at h
  | cons g gs' ih =>
    cases gs' with
    | nil =>
      simp only [joinSep] at h
      exact Or.inr ⟨g, by simp, h⟩
    | cons g2 rest =>
      rw [joinSep_cons2] at h
      rcases List.mem_append.mp h with hg | hrest
      · exact Or.inr ⟨g, by simp, hg⟩
      · rcases List.mem_cons.mp hrest with hsep | hin
        · exact Or.inl hsep
        · rcases ih hin with hs | ⟨g', hg', hc⟩
          · exact Or.inl hs
          · exact Or.inr ⟨g', by simp [hg'], hc⟩

theorem length_splitSep (sep : Char) (l : List Char) :
    (splitSep sep l).length = l.count sep + 1 := by
  induction l with
  | nil => simp [splitSep]
  | cons c rest ih =>
    obtain ⟨g, gs, hg⟩ : ∃ g gs, splitSep sep rest = g :: gs := by
      cases hr : splitSep sep rest with
      | nil => exact absurd hr (splitSep_ne_nil sep rest)
      | cons g gs => exact ⟨g, gs, rfl⟩
    by_cases hc : c = sep
    · simp only [splitSep, if_pos hc, List.length_cons, ih]
      rw [List.count_cons]
      simp [hc]
    · simp only [splitSep, if_neg hc, hg]
      rw [hg] at ih
      simp only [List.length_cons] at ih ⊢
      simp only [List.headD, List.tail, List.length_cons]
      rw [List.count_cons]
      have hne : (c == sep) = false := beq_eq_false_iff_ne.mpr hc
      rw [hne]
      simp
      omega

theorem joinSep_eq_nil (sep : Char) (gs : List (List Char))
    (h : joinSep sep gs = []) : gs = [] ∨ gs = [[]] := by
  cases gs with
  | nil => exact Or.inl rfl
  | cons g gs' =>
    cases gs' with
    | nil =>
      simp only [joinSep] at h
      exact Or.inr (by rw [h])
    | cons g2 rest =>
      rw [joinSep_cons2] at h
      exact absurd h (by simp)

theorem joinSep_ne_nil (sep : Char) (gs : List (List Char)) (h0 : gs ≠ [])
    (h : ∀ g ∈ gs, g ≠ []) : joinSep sep gs ≠ [] := by
  intro hj
  rcases joinSep_eq_nil sep gs hj with h1 | h1
  · exact h0 h1
  · exact h [] (by simp [h1]) rfl

/-- Digit test for `\d` (codepoints 48–57). -/
def isDigitChar (c : Char) : Bool :=
  decide (48 ≤ c.toNat) && decide (c.toNat ≤ 57)

/-- Hex-digit test for the case-insensitive class `[\dA-F]`
(`0-9`, `A-F`, `a-f`; the source regex carries the `i` flag). -/
def isHexDigitChar (c : Char) : Bool :=
  (decide (48 ≤ c.toNat) && decide (c.toNat ≤ 57)) ||
  (decide (65 ≤ c.toNat) && decide (c.toNat ≤ 70)) ||
  (decide (97 ≤ c.toNat) && decide (c.toNat ≤ 102))

/-- The octet alternation of `regexes.ipv4`:
`\d | [1-9]\d | 1\d{2} | 2[0-4]\d | 25[0-5]`, i.e. the canonical decimal
representations of 0–255 (no extra leading zeros). -/
def isOctet (g : List Char) : Bool :=
  match g with
  | [a] => isDigitChar a
  | [a, b] => decide (49 ≤ a.toNat) && decide (a.toNat ≤ 57) && isDigitChar b
  | [a, b, c] =>
    (decide (a.toNat = 49) && isDigitChar b && isDigitChar c) ||
    (decide (a.toNat = 50) && decide (48 ≤ b.toNat) && decide (b.toNat ≤ 52) &&
      isDigitChar c) ||
    (decide (a.toNat = 50) && decide (b.toNat = 53) && decide (48 ≤ c.toNat) &&
      decide (c.toNat ≤ 53))
  | _ => false

/-- Language of `regexes.ipv4 = /^(?:octet\.){3}octet$/`: since octets are
pure digit strings (no `.`), the anchored pattern matches exactly the
strings whose `.`-split has four fields, each an octet. -/
def ipv4Chars (l : List Char) : Bool :=
  match splitSep '.' l with
  | [a, b, c, d] => isOctet a && isOctet b && isOctet c && isOctet d
  | _ => false

/-- A hex group `[\dA-F]{1,4}` (with the `i` flag). -/
def isHexGroup (g : List Char) : Bool :=
  decide (1 ≤ g.length) && decide (g.length ≤ 4) && g.all isHexDigitChar

/-- First occurrence of `"::"`: `breakColonColon l = some (p, q)` iff
`l = p ++ "::" ++ q` with the shown occurrence leftmost; `none` iff `l`
has no `"::"` substring. -/
def breakColonColon : List Char → Option (List Char × List Char)
  | [] => none
  | [_] => none
  | c :: d :: rest =>
    if c = ':' ∧ d = ':' then some ([], rest)
    else (breakColonColon (d :: rest)).map (fun pq => (c :: pq.1, pq.2))

/-- The no-`::` alternatives of `regexes.ipv6`.  Without a `::` the only
surviving paths of the pattern are `([\dA-F]{1,4}:){6}` followed either by
`[\dA-F]{1,4}:\b[\dA-F]{1,4}$` (eight hex groups in total) or by the
dotted-quad tail `(((2[0-4]|1\d|[1-9])?\d|25[0-5])\.?\b){4}$` (six hex
groups and an IPv4 quad); the word-boundary assertions force the inner
dots of the quad and forbid a trailing dot, so the tail language is exactly
`ipv4Chars`. -/
def ipv6NoComp (l : List Char) : Bool :=
  match splitSep ':' l with
  | parts =>
    (decide (parts.length = 8) && parts.all isHexGroup) ||
    (decide (parts.length = 7) && parts.dropLast.all isHexGroup &&
      ipv4Chars (parts.getLastD []))

/-- Groups before the unique `::` of a compressed address (the
`(::)?([\dA-F]{1,4}:(:|\b)|){5}` head): zero or more `:`-separated hex
groups. -/
def ipv6Head (l : List Char) : Option Nat :=
  if l.isEmpty then some 0
  else
    match splitSep ':' l with
    | parts => if parts.all isHexGroup then some parts.length else none

/-- Groups after the unique `::`: zero or more hex groups, optionally
ending in a dotted quad (the two tail branches of the regex).  Returns the
group count and whether an IPv4 tail is present. -/
def ipv6Tail (l : List Char) : Option (Nat × Bool) :=
  if l.isEmpty then some (0, false)
  else
    match splitSep ':' l with
    | parts =>
      if parts.all isHexGroup then some (parts.length, false)
      else if parts.dropLast.all isHexGroup && ipv4Chars (parts.getLastD []) then
        some (parts.length - 1, true)
      else none

/-- Language of `regexes.ipv6`, derived from the pattern
`/^((?=.*::)(?!.*::.+::)(::)?([\dA-F]{1,4}:(:|\b)|){5}|([\dA-F]{1,4}:){6})((([\dA-F]{1,4}((?!\3)::|:\b|$))|(?!\2\3)){2}|(((2[0-4]|1\d|[1-9])?\d|25[0-5])\.?\b){4})$/i`.

Branch analysis (all matches are anchored on both sides):
* the second head branch `([\dA-F]{1,4}:){6}` plus the tails yields the
  two `::`-free forms captured by `ipv6NoComp` — with no `::` consumed,
  the backreferences `\2`, `\3` are empty, so the zero-width tail
  alternative `(?!\2\3)` and the `(?!\3)::` option are unsatisfiable and
  the first tail branch degenerates to `hex:\b hex$`;
* the first head branch demands a `::` somewhere (`(?=.*::)`), forbids a
  second separated `::` (`(?!.*::.+::)`), and its body
  `(::)? (hex{1,4}:(:|\b) | ){5}` followed by the tails generates exactly
  the strings `pre-groups ++ "::" ++ post-groups` with
  `#pre + #post ≤ 7` (up to five head units plus up to two tail hex
  groups), or `pre-groups ++ "::" ++ post-groups ++ ipv4-quad` with
  `#pre + #post ≤ 5` (the quad tail replaces both tail hex groups);
  runs of three or more colons and strings with two separated `::`
  never survive the lookaheads or the unit shapes. -/
def ipv6Chars (l : List Char) : Bool :=
  match breakColonColon l with
  | none => ipv6NoComp l
  | some (p, q) =>
    match ipv6Head p, ipv6Tail q with
    | some m, some (n, v4) =>
      if v4 then decide (m + n ≤ 5) else decide (m + n ≤ 7)
    | _, _ => false

/-- Predicate `isIp` from the source:
`value && (regexes.ipv4.test(value) || regexes.ipv6.test(value))`.
`none` models JS `null`/`undefined`; the `value &&` guard makes the empty
string (JS-falsy) fail.  The function is used only for its truthiness, so
it is modelled as a `Bool`. -/
def isIp (value : Option String) : Bool :=
  match value with
  | none => false
  | some s => !s.data.isEmpty && (ipv4Chars s.data || ipv6Chars s.data)

example : isIp (some "127.0.0.1") = true := by decide
example : isIp (some "255.255.255.255") = true := by decide
example : isIp (some "256.1.1.1") = false := by decide
example : isIp (some "unknown") = false := by decide
example : isIp (some "") = false := by decide
example : isIp (some "::1") = true := by decide
example : isIp (some "2001:db8::ff00:42:8329") = true := by decide
example : isIp (some "1:2:3:4:5:6:7:8") = true := by decide
example : isIp (some "1:2:3:4:5:6:7:8:9") = false := by decide
example : isIp (some "::ffff:1.2.3.4") = true := by decide
example : isIp (some "1::2::3") = false := by decide
example : isIp (some ":::") = false := by decide
example : isIp (some "1:2:3:4:5:6:1.2.3.4") = true := by decide
example : isIp (some "9.9.9.9") = true := by decide

/-- A JavaScript runtime value as it can reach
`getClientIpFromXForwardedFor` (whose TypeScript annotation is
`string | null | undefined`, but whose body guards against other runtime
types with `typeof`).  Numbers are modelled by `Int`; that suffices for
JS truthiness of the values relevant here. -/
inductive JsVal where
  | undef : JsVal
  | jsNull : JsVal
  | str : String → JsVal
  | num : Int → JsVal
  | bool : Bool → JsVal

/-- JS truthiness (`!value` is `!jsTruthy value`): `undefined`, `null`,
`""`, `0` and `false` are falsy. -/
def jsTruthy : JsVal → Bool
  | .undef => false
  | .jsNull => false
  | .str s => !s.data.isEmpty
  | .num n => !(n == 0)
  | .bool b => b

/-- JS `typeof`. -/
def jsTypeof : JsVal → String
  | .undef => "undefined"
  | .jsNull => "object"
  | .str _ => "string"
  | .num _ => "number"
  | .bool _ => "boolean"

/-- ASCII fragment of the whitespace class trimmed by JS
`String.prototype.trim` (tab, LF, VT, FF, CR, space). -/
def isSpaceChar (c : Char) : Bool :=
  decide (c.toNat = 32) || (decide (9 ≤ c.toNat) && decide (c.toNat ≤ 13))

/-- Trim, that is `e.trim()`, on the character level. -/
def trimChars (l : List Char) : List Char :=
  ((l.dropWhile isSpaceChar).reverse.dropWhile isSpaceChar).reverse

/-- The per-token cleaning function of the decomposer:
`const ip = e.trim(); if (ip.includes(":")) { const splitted = ip.split(":");
if (splitted.length === 2) return splitted[0]; } return ip;`. -/
def cleanToken (e : String) : String :=
  let ip := trimChars e.data
  if ip.any (fun c => c == ':') then
    if (splitSep ':' ip).length = 2 then ⟨(splitSep ':' ip).headD []⟩ else ⟨ip⟩
  else ⟨ip⟩

/-- Function `getClientIpFromXForwardedFor`.  `Except.error` models the thrown
`TypeError`; `.ok none` models returning `null`.  The source first checks
`if (!value) return null`, then `if (typeof value != "string") throw`,
then splits on `","`, cleans each token, and returns the first token
accepted by `isIp` (the `for` loop), else `null`. -/
def getClientIpFromXForwardedFor (value : JsVal) : Except String (Option String) :=
  if !jsTruthy value then Except.ok none
  else
    match value with
    | JsVal.str s =>
      Except.ok
        (((splitSep ',' s.data).map (fun e => cleanToken ⟨e⟩)).find?
          (fun ip => isIp (some ip)))
    | v => Except.error ("Expected a string, got \"" ++ jsTypeof v ++ "\"")

/-- ASCII lowercase of one character. -/
def lowerChar (c : Char) : Char :=
  if 65 ≤ c.toNat ∧ c.toNat ≤ 90 then Char.ofNat (c.toNat + 32) else c

/-- ASCII lowercase of a header name. -/
def lowerName (s : String) : String := ⟨s.data.map lowerChar⟩

/-- A Fetch-API `Headers` map, modelled as a lookup function keyed by
lowercase header names (`Headers.get` is case-insensitive, which
`headersGet` realises by lowercasing the queried name). -/
def headersGet (h : String → Option String) (name : String) : Option String :=
  h (lowerName name)

/-- The `Request` shape consumed by `getClientIp`: only `req.headers` is
used (a JS object field that may be absent, hence `Option`). -/
structure Request where
  headers : Option (String → Option String)

/-- Conversion of `string | null` from `Headers.get` to the JS value handed to the
decomposer. -/
def toJsVal : Option String → JsVal
  | none => JsVal.jsNull
  | some s => JsVal.str s

/-- Function `getClientIp`: the ordered header cascade of the source.  Both
`if (req.headers)` blocks of the source are folded into the single
`some h` branch (when `req.headers` is absent both blocks are skipped and
the function returns `null`, i.e. `.ok none`).  A `TypeError` thrown by
the decomposer propagates (`.error`). -/
def getClientIp (req : Request) : Except String (Option String) :=
  match req.headers with
  | none => Except.ok none
  | some h =>
    if isIp (headersGet h "x-client-ip") then Except.ok (headersGet h "x-client-ip")
    else
      match getClientIpFromXForwardedFor (toJsVal (headersGet h "x-forwarded-for")) with
      | Except.error e => Except.error e
      | Except.ok xForwardedFor =>
        if isIp xForwardedFor then Except.ok xForwardedFor
        else if isIp (headersGet h "cf-connecting-ip") then
          Except.ok (headersGet h "cf-connecting-ip")
        else if isIp (headersGet h "do-connecting-ip") then
          Except.ok (headersGet h "do-connecting-ip")
        else if isIp (headersGet h "fastly-client-ip") then
          Except.ok (headersGet h "fastly-client-ip")
        else if isIp (headersGet h "true-client-ip") then
          Except.ok (headersGet h "true-client-ip")
        else if isIp (headersGet h "x-real-ip") then
          Except.ok (headersGet h "x-real-ip")
        else if isIp (headersGet h "x-cluster-client-ip") then
          Except.ok (headersGet h "x-cluster-client-ip")
        else if isIp (headersGet h "x-forwarded") then
          Except.ok (headersGet h "x-forwarded")
        else if isIp (headersGet h "forwarded-for") then
          Except.ok (headersGet h "forwarded-for")
        else if isIp (headersGet h "forwarded") then
          Except.ok (headersGet h "forwarded")
        else if isIp (headersGet h "x-appengine-user-ip") then
          Except.ok (headersGet h "x-appengine-user-ip")
        else if isIp (headersGet h "Cf-Pseudo-IPv4") then
          Except.ok (headersGet h "Cf-Pseudo-IPv4")
        else Except.ok none

/-- Extraction strategy of a chain entry (spec section 9: the cascade as
an ordered list of (header-name, extraction-strategy) pairs). -/
inductive HeaderKind where
  | direct : HeaderKind
  | forwardedFor : HeaderKind

/-- The fixed priority list of the spec (section 4.3, entries 1–12; the
fallback entry 13, `cf-pseudo-ipv4`, is checked separately). -/
def headerChain : List (String × HeaderKind) :=
  [("x-client-ip", HeaderKind.direct),
   ("x-forwarded-for", HeaderKind.forwardedFor),
   ("cf-connecting-ip", HeaderKind.direct),
   ("do-connecting-ip", HeaderKind.direct),
   ("fastly-client-ip", HeaderKind.direct),
   ("true-client-ip", HeaderKind.direct),
   ("x-real-ip", HeaderKind.direct),
   ("x-cluster-client-ip", HeaderKind.direct),
   ("x-forwarded", HeaderKind.direct),
   ("forwarded-for", HeaderKind.direct),
   ("forwarded", HeaderKind.direct),
   ("x-appengine-user-ip", HeaderKind.direct)]

/-- One chain entry: a `direct` header succeeds when its value passes the
Address Validator; the forwarded-for entry succeeds via the Decomposer
re-validated by `isIp`. -/
def tryHeader (h : String → Option String) : String × HeaderKind → Except String (Option String)
  | (name, HeaderKind.direct) =>
    Except.ok (if isIp (headersGet h name) then headersGet h name else none)
  | (name, HeaderKind.forwardedFor) =>
    match getClientIpFromXForwardedFor (toJsVal (headersGet h name)) with
    | Except.error e => Except.error e
    | Except.ok r => Except.ok (if isIp r then r else none)

/-- Evaluate chain entries in order, short-circuiting on the first
success and propagating a thrown error. -/
def firstSuccess (h : String → Option String) : List (String × HeaderKind) → Except String (Option String)
  | [] => Except.ok none
  | entry :: rest =>
    match tryHeader h entry with
    | Except.error e => Except.error e
    | Except.ok (some ip) => Except.ok (some ip)
    | Except.ok none => firstSuccess h rest

/-- Modelled from the spec (section 4.3): the Resolver as an ordered
table walk — the fixed list `headerChain` evaluated in order with early
exit, then the `cf-pseudo-ipv4` fallback, else "none found".  Used as the
specification side of the refinement claim about the priority order. -/
def resolveOrdered (req : Request) : Except String (Option String) :=
  match req.headers with
  | none => Except.ok none
  | some h =>
    match firstSuccess h headerChain with
    | Except.ok none =>
      if isIp (headersGet h "Cf-Pseudo-IPv4") then Except.ok (headersGet h "Cf-Pseudo-IPv4")
      else Except.ok none
    | r => r

example :
    getClientIp ⟨some (fun n =>
      if n = "x-client-ip" then some "9.9.9.9"
      else if n = "x-forwarded-for" then some "1.1.1.1" else none)⟩
      = Except.ok (some "9.9.9.9") := rfl

example :
    getClientIp ⟨some (fun n =>
      if n = "x-forwarded-for" then some "unknown, 70.41.3.18" else none)⟩
      = Except.ok (some "70.41.3.18") := rfl

example :
    getClientIp ⟨some (fun n =>
      if n = "x-forwarded-for" then some "203.0.113.5:4711, 70.41.3.18" else none)⟩
      = Except.ok (some "203.0.113.5") := rfl

example : getClientIp ⟨none⟩ = Except.ok none := rfl

example : getClientIpFromXForwardedFor (JsVal.num 0) = Except.ok none := rfl

example :
    getClientIpFromXForwardedFor (JsVal.num 42)
      = Except.error "Expected a string, got \"number\"" := rfl

theorem breakCC_fire (w : List Char) :
    breakColonColon (':' :: ':' :: w) = some ([], w) := by
  simp [breakColonColon]

theorem breakCC_cons_ne (c d : Char) (rest : List Char) (h : ¬(c = ':' ∧ d = ':')) :
    breakColonColon (c :: d :: rest)
      = (breakColonColon (d :: rest)).map (fun pq => (c :: pq.1, pq.2)) := by
  simp [breakColonColon, h]

theorem breakCC_none_of_no_colon (l : List Char) (h : ∀ c ∈ l, c ≠ ':') :
    breakColonColon l = none := by
  induction l with
  | nil => rfl
  | cons c rest ih =>
    cases rest with
    | nil => rfl
    | cons d rest2 =>
      have hc : c ≠ ':' := h c (by simp)
      rw [breakCC_cons_ne c d rest2 (fun hp => hc hp.1)]
      rw [ih (fun x hx => h x (by simp [hx]))]
      rfl

theorem breakCC_prefix_no_colon (a : List Char) (h : ∀ c ∈ a, c ≠ ':')
    (t : List Char) :
    breakColonColon (a ++ t)
      = (breakColonColon t).map (fun pq => (a ++ pq.1, pq.2)) := by
  induction a with
  | nil => cases hb : breakColonColon t <;> simp [hb]
  | cons c a' ih =>
    have hc : c ≠ ':' := h c (by simp)
    have hr := ih (fun x hx => h x (by simp [hx]))
    cases ha : a' ++ t with
    | nil =>
      have ha' : a' = [] := by cases a' <;> simp_all
      have ht : t = [] := by
        subst ha'; simpa using ha
      subst ha'; subst ht
      simp [breakColonColon]
    | cons d rest =>
      have : c :: a' ++ t = c :: d :: rest := by simp [ha]
      rw [this, breakCC_cons_ne c d rest (fun hp => hc hp.1), ← ha, hr]
      cases breakColonColon t <;> simp

theorem breakCC_colon_single (x : Char) (xs : List Char) (hx : x ≠ ':') :
    breakColonColon (':' :: x :: xs)
      = (breakColonColon (x :: xs)).map (fun pq => (':' :: pq.1, pq.2)) := by
  exact breakCC_cons_ne ':' x xs (fun hp => hx hp.2)

theorem breakCC_join (gs : List (List Char)) (h0 : ∀ g ∈ gs, g ≠ [])
    (h : ∀ g ∈ gs, ∀ c ∈ g, c ≠ ':') (w : List Char) :
    breakColonColon (joinSep ':' gs ++ ':' :: ':' :: w)
      = some (joinSep ':' gs, w) := by
  induction gs with
  | nil => simpa [joinSep] using breakCC_fire w
  | cons g gs' ih =>
    cases gs' with
    | nil =>
      rw [joinSep_single,
        breakCC_prefix_no_colon g (h g (by simp)) (':' :: ':' :: w),
        breakCC_fire w]
      simp
    | cons g2 rest =>
      have hih := ih (fun x hx => h0 x (by simp [hx]))
        (fun x hx c hc => h x (by simp [hx]) c hc)
      obtain ⟨c2, g2', hg2⟩ : ∃ c2 g2', g2 = c2 :: g2' := by
        cases hg : g2 with
        | nil => exact absurd hg (h0 g2 (by simp))
        | cons c2 g2' => exact ⟨c2, g2', rfl⟩
      have hc2 : c2 ≠ ':' := h g2 (by simp) c2 (by simp [hg2])
      rw [joinSep_cons2]
      have hassoc : (g ++ ':' :: joinSep ':' (g2 :: rest)) ++ ':' :: ':' :: w
          = g ++ (':' :: (joinSep ':' (g2 :: rest) ++ ':' :: ':' :: w)) := by
        simp
      rw [hassoc, breakCC_prefix_no_colon g (h g (by simp)) _]
      have hcons : ∃ tl, joinSep ':' (g2 :: rest) ++ ':' :: ':' :: w = c2 :: tl := by
        cases rest with
        | nil => exact ⟨g2' ++ ':' :: ':' :: w, by simp [joinSep_single, hg2]⟩
        | cons g3 rest' =>
          exact ⟨g2' ++ ':' :: joinSep ':' (g3 :: rest') ++ ':' :: ':' :: w, by
            simp [joinSep_cons2, hg2]⟩
      obtain ⟨tl, htl⟩ := hcons
      rw [htl, breakCC_colon_single c2 tl hc2, ← htl, hih]
      simp

theorem breakCC_some_decomp (l : List Char) :
    ∀ p q, breakColonColon l = some (p, q) → l = p ++ ':' :: ':' :: q := by
  induction l with
  | nil => intro p q h; exact absurd h (by simp [breakColonColon])
  | cons c rest ih =>
    intro p q h
    cases rest with
    | nil => exact absurd h (by simp [breakColonColon])
    | cons d rest2 =>
      by_cases hcd : c = ':' ∧ d = ':'
      · rw [show breakColonColon (c :: d :: rest2) = some ([], rest2) from by
          simp [breakColonColon, hcd]] at h
        obtain ⟨hp, hq⟩ : p = [] ∧ q = rest2 := by
          constructor <;> · injection h with h1; injection h1 with h2 h3; simp_all
        subst hp; subst hq
        simp [hcd.1, hcd.2]
      · rw [breakCC_cons_ne c d rest2 hcd] at h
        cases hb : breakColonColon (d :: rest2) with
        | none => rw [hb] at h; exact absurd h (by simp)
        | some pq =>
          rw [hb] at h
          simp only [Option.map_some'] at h
          obtain ⟨hp, hq⟩ : p = c :: pq.1 ∧ q = pq.2 := by
            constructor <;> · injection h with h1; injection h1 with h2 h3; simp_all
          subst hp; subst hq
          have := ih pq.1 pq.2 (by rw [hb])
          simp [this]

theorem breakCC_cc_ne_none (x w : List Char) :
    breakColonColon (x ++ ':' :: ':' :: w) ≠ none := by
  induction x with
  | nil => simp [breakCC_fire]
  | cons c x' ih =>
    cases hx' : x' with
    | nil =>
      by_cases hc : c = ':'
      · subst hc
        rw [show (':' :: ([] : List Char)) ++ ':' :: ':' :: w
            = ':' :: ':' :: (':' :: w) from by simp, breakCC_fire]
        simp
      · rw [show (c :: ([] : List Char)) ++ ':' :: ':' :: w
            = c :: ':' :: (':' :: w) from by simp,
          breakCC_cons_ne c ':' (':' :: w) (fun hp => hc hp.1), breakCC_fire]
        simp
    | cons d x'' =>
      subst hx'
      by_cases hcd : c = ':' ∧ d = ':'
      · rw [show (c :: d :: x'') ++ ':' :: ':' :: w
            = c :: d :: (x'' ++ ':' :: ':' :: w) from by simp,
          show breakColonColon (c :: d :: (x'' ++ ':' :: ':' :: w))
            = some ([], x'' ++ ':' :: ':' :: w) from by simp [breakColonColon, hcd]]
        simp
      · rw [show (c :: d :: x'') ++ ':' :: ':' :: w
            = c :: ((d :: x'') ++ ':' :: ':' :: w) from by simp]
        rw [show c :: ((d :: x'') ++ ':' :: ':' :: w)
            = c :: d :: (x'' ++ ':' :: ':' :: w) from by simp]
        rw [breakCC_cons_ne c d _ hcd]
        intro hmap
        rcases Option.map_eq_none'.mp hmap with hnone
        exact ih (by simpa using hnone)

theorem breakCC_q_suffix (x w : List Char) :
    ∀ p q, breakColonColon (x ++ ':' :: ':' :: w) = some (p, q) →
      ∃ u, q = u ++ w := by
  induction x with
  | nil =>
    intro p q h
    rw [show ([] : List Char) ++ ':' :: ':' :: w = ':' :: ':' :: w from by simp,
      breakCC_fire] at h
    refine ⟨[], ?_⟩
    injection h with h1
    injection h1 with h2 h3
    simp [← h3]
  | cons c x' ih =>
    intro p q h
    cases hx' : x' with
    | nil =>
      subst hx'
      by_cases hc : c = ':'
      · subst hc
        rw [show (':' :: ([] : List Char)) ++ ':' :: ':' :: w
            = ':' :: ':' :: (':' :: w) from by simp, breakCC_fire] at h
        refine ⟨[':'], ?_⟩
        injection h with h1
        injection h1 with h2 h3
        simp [← h3]
      · rw [show (c :: ([] : List Char)) ++ ':' :: ':' :: w
            = c :: ':' :: (':' :: w) from by simp,
          breakCC_cons_ne c ':' (':' :: w) (fun hp => hc hp.1), breakCC_fire] at h
        refine ⟨[], ?_⟩
        simp only [Option.map_some'] at h
        injection h with h1
        injection h1 with h2 h3
        simp [← h3]
    | cons d x'' =>
      subst hx'
      by_cases hcd : c = ':' ∧ d = ':'
      · rw [show (c :: d :: x'') ++ ':' :: ':' :: w
            = c :: d :: (x'' ++ ':' :: ':' :: w) from by simp,
          show breakColonColon (c :: d :: (x'' ++ ':' :: ':' :: w))
            = some ([], x'' ++ ':' :: ':' :: w) from by
            simp [breakColonColon, hcd]] at h
        refine ⟨x'' ++ [':', ':'], ?_⟩
        injection h with h1
        injection h1 with h2 h3
        simp [← h3]
      · rw [show (c :: d :: x'') ++ ':' :: ':' :: w
            = c :: d :: (x'' ++ ':' :: ':' :: w) from by simp,
          breakCC_cons_ne c d _ hcd] at h
        cases hb : breakColonColon (d :: (x'' ++ ':' :: ':' :: w)) with
        | none => rw [hb] at h; exact absurd h (by simp)
        | some pq =>
          rw [hb] at h
          have hq : q = pq.2 := by
            simp only [Option.map_some'] at h
            injection h with h1
            injection h1 with h2 h3
            simp [← h3]
          subst hq
          exact ih pq.1 pq.2 (by rw [show (d :: x'') ++ ':' :: ':' :: w
            = d :: (x'' ++ ':' :: ':' :: w) from by simp, hb])

theorem splitSep_cc_mem_nil : ∀ (a b : List Char),
    [] ∈ splitSep ':' (a ++ ':' :: ':' :: b)
  | [], b => by
    simp only [List.nil_append]
    simp [splitSep]
  | [c], b => by
    simp only [List.cons_append, List.nil_append]
    by_cases hc : c = ':'
    · simp [splitSep, hc]
    · simp [splitSep, hc]
  | c :: d :: a', b => by
    simp only [List.cons_append]
    by_cases hc : c = ':'
    · rw [show splitSep ':' (c :: d :: (a' ++ ':' :: ':' :: b))
          = [] :: splitSep ':' (d :: (a' ++ ':' :: ':' :: b)) from by
        simp [splitSep, hc]]
      simp
    · rw [show splitSep ':' (c :: d :: (a' ++ ':' :: ':' :: b))
          = (c :: (splitSep ':' (d :: (a' ++ ':' :: ':' :: b))).headD []) ::
            (splitSep ':' (d :: (a' ++ ':' :: ':' :: b))).tail from by
        simp [splitSep, hc]]
      by_cases hd : d = ':'
      · have hrec := splitSep_cc_mem_nil a' b
        rw [show splitSep ':' (d :: (a' ++ ':' :: ':' :: b))
            = [] :: splitSep ':' (a' ++ ':' :: ':' :: b) from by simp [splitSep, hd]]
        simp only [List.tail_cons]
        exact List.mem_cons_of_mem _ hrec
      · have hrec := splitSep_cc_mem_nil (d :: a') b
        rw [show (d :: a') ++ ':' :: ':' :: b
            = d :: (a' ++ ':' :: ':' :: b) from by simp] at hrec
        rw [show splitSep ':' (d :: (a' ++ ':' :: ':' :: b))
            = (d :: (splitSep ':' (a' ++ ':' :: ':' :: b)).headD []) ::
              (splitSep ':' (a' ++ ':' :: ':' :: b)).tail from by
          simp [splitSep, hd]] at hrec ⊢
        simp only [List.tail_cons]
        rcases List.mem_cons.mp hrec with habs | htail
        · exact absurd habs (by simp)
        · exact List.mem_cons_of_mem _ htail

/-- Decimal value of a digit string (used to state the octet bound). -/
def decValue (g : List Char) : Nat :=
  g.foldl (fun acc c => acc * 10 + (c.toNat - 48)) 0

theorem isOctet_val_le (g : List Char) (h : isOctet g = true) :
    decValue g ≤ 255 := by
  cases g with
  | nil => simp [isOctet] at h
  | cons a t =>
    cases t with
    | nil =>
      simp [isOctet, isDigitChar] at h
      simp [decValue, List.foldl]
      omega
    | cons b t2 =>
      cases t2 with
      | nil =>
        simp [isOctet, isDigitChar] at h
        simp [decValue, List.foldl]
        omega
      | cons c t3 =>
        cases t3 with
        | nil =>
          simp only [isOctet, isDigitChar, Bool.or_eq_true, Bool.and_eq_true,
            decide_eq_true_eq] at h
          simp [decValue, List.foldl]
          omega
        | cons e t4 => simp [isOctet] at h

theorem isOctet_all_digits (g : List Char) (h : isOctet g = true) :
    ∀ c ∈ g, isDigitChar c = true := by
  cases g with
  | nil => simp [isOctet] at h
  | cons a t =>
    cases t with
    | nil =>
      simp only [isOctet] at h
      intro c hc
      rcases List.mem_singleton.mp hc with rfl
      exact h
    | cons b t2 =>
      cases t2 with
      | nil =>
        simp [isOctet, isDigitChar] at h
        intro c hc
        simp only [List.mem_cons, List.not_mem_nil, or_false] at hc
        rcases hc with rfl | rfl <;> · simp [isDigitChar]; omega
      | cons c t3 =>
        cases t3 with
        | nil =>
          simp only [isOctet, isDigitChar, Bool.or_eq_true, Bool.and_eq_true,
            decide_eq_true_eq] at h
          intro x hx
          simp only [List.mem_cons, List.not_mem_nil, or_false] at hx
          simp only [isDigitChar, Bool.and_eq_true, decide_eq_true_eq]
          rcases hx with rfl | rfl | rfl <;> omega
        | cons e t4 => simp [isOctet] at h

set_option maxRecDepth 8192 in
theorem octet_repr_valid : ∀ m : Fin 256, isOctet (Nat.repr m.1).data = true := by
  decide

set_option maxRecDepth 8192 in
theorem repr_all_digits : ∀ m : Fin 256,
    (Nat.repr m.1).data.all isDigitChar = true := by
  decide

theorem repr_digits_of_lt (n : Nat) (h : n < 256) :
    ∀ c ∈ (Nat.repr n).data, isDigitChar c = true := by
  have := repr_all_digits ⟨n, h⟩
  simpa [List.all_eq_true] using this

theorem isDigitChar_ne_dot (c : Char) (h : isDigitChar c = true) : c ≠ '.' := by
  intro he; subst he; exact absurd h (by decide)

theorem isDigitChar_ne_colon (c : Char) (h : isDigitChar c = true) : c ≠ ':' := by
  intro he; subst he; exact absurd h (by decide)

theorem isHexDigitChar_ne_colon (c : Char) (h : isHexDigitChar c = true) :
    c ≠ ':' := by
  intro he; subst he; exact absurd h (by decide)

/-- The characters of the canonical dotted quad `a.b.c.d`. -/
def quadChars (a b c d : Nat) : List Char :=
  (Nat.repr a).data ++ '.' ::
    ((Nat.repr b).data ++ '.' :: ((Nat.repr c).data ++ '.' :: (Nat.repr d).data))

theorem quadChars_ne_nil (a b c d : Nat) : quadChars a b c d ≠ [] := by
  cases hra : (Nat.repr a).data <;> simp [quadChars, hra]

theorem quadChars_chars (a b c d : Nat) (ha : a ≤ 255) (hb : b ≤ 255)
    (hc : c ≤ 255) (hd : d ≤ 255) :
    ∀ ch ∈ quadChars a b c d, isDigitChar ch = true ∨ ch = '.' := by
  intro ch hch
  simp only [quadChars, List.mem_append, List.mem_cons] at hch
  rcases hch with h1 | rfl | h1 | rfl | h1 | rfl | h1
  · exact Or.inl (repr_digits_of_lt a (by omega) ch h1)
  · exact Or.inr rfl
  · exact Or.inl (repr_digits_of_lt b (by omega) ch h1)
  · exact Or.inr rfl
  · exact Or.inl (repr_digits_of_lt c (by omega) ch h1)
  · exact Or.inr rfl
  · exact Or.inl (repr_digits_of_lt d (by omega) ch h1)

theorem quadChars_no_colon (a b c d : Nat) (ha : a ≤ 255) (hb : b ≤ 255)
    (hc : c ≤ 255) (hd : d ≤ 255) :
    ∀ ch ∈ quadChars a b c d, ch ≠ ':' := by
  intro ch hch
  rcases quadChars_chars a b c d ha hb hc hd ch hch with hdig | rfl
  · exact isDigitChar_ne_colon ch hdig
  · simp

theorem splitSep_quadChars (a b c d : Nat) (ha : a ≤ 255) (hb : b ≤ 255)
    (hc : c ≤ 255) (hd : d ≤ 255) :
    splitSep '.' (quadChars a b c d)
      = [(Nat.repr a).data, (Nat.repr b).data, (Nat.repr c).data,
         (Nat.repr d).data] := by
  have hna : ∀ ch ∈ (Nat.repr a).data, ch ≠ '.' :=
    fun ch hch => isDigitChar_ne_dot ch (repr_digits_of_lt a (by omega) ch hch)
  have hnb : ∀ ch ∈ (Nat.repr b).data, ch ≠ '.' :=
    fun ch hch => isDigitChar_ne_dot ch (repr_digits_of_lt b (by omega) ch hch)
  have hnc : ∀ ch ∈ (Nat.repr c).data, ch ≠ '.' :=
    fun ch hch => isDigitChar_ne_dot ch (repr_digits_of_lt c (by omega) ch hch)
  have hnd : ∀ ch ∈ (Nat.repr d).data, ch ≠ '.' :=
    fun ch hch => isDigitChar_ne_dot ch (repr_digits_of_lt d (by omega) ch hch)
  rw [quadChars, splitSep_append '.' _ _ hna, splitSep_append '.' _ _ hnb,
    splitSep_append '.' _ _ hnc, splitSep_no_sep '.' _ hnd]

theorem ipv4Chars_quad (a b c d : Nat) (ha : a ≤ 255) (hb : b ≤ 255)
    (hc : c ≤ 255) (hd : d ≤ 255) :
    ipv4Chars (quadChars a b c d) = true := by
  simp only [ipv4Chars]
  rw [splitSep_quadChars a b c d ha hb hc hd]
  simp only [octet_repr_valid ⟨a, by omega⟩, octet_repr_valid ⟨b, by omega⟩,
    octet_repr_valid ⟨c, by omega⟩, octet_repr_valid ⟨d, by omega⟩,
    Bool.and_self]

theorem append_cons_ne_nil (a : List Char) (c : Char) (b : List Char) :
    a ++ c :: b ≠ [] := by
  cases a <;> simp

theorem dropLast_single_append (l : List (List Char)) (x : List Char) :
    (l ++ [x]).dropLast = l := by
  simp

theorem getLastD_single_append (l : List (List Char)) (x d : List Char) :
    (l ++ [x]).getLastD d = x := by
  induction l generalizing d with
  | nil => rfl
  | cons y l' ih => simp [List.getLastD, ih y]

theorem isHexGroup_ne_nil (g : List Char) (h : isHexGroup g = true) : g ≠ [] := by
  intro he; subst he; exact absurd h (by decide)

theorem isHexGroup_no_colon (g : List Char) (h : isHexGroup g = true) :
    ∀ c ∈ g, c ≠ ':' := by
  simp only [isHexGroup, Bool.and_eq_true, List.all_eq_true] at h
  intro c hc
  exact isHexDigitChar_ne_colon c (h.2 c hc)

theorem isHexGroup_quad_false (a b c d : Nat) :
    isHexGroup (quadChars a b c d) = false := by
  cases hg : isHexGroup (quadChars a b c d) with
  | false => rfl
  | true =>
    exfalso
    simp only [isHexGroup, Bool.and_eq_true, List.all_eq_true] at hg
    have hdot : '.' ∈ quadChars a b c d := by
      cases hra : (Nat.repr a).data <;> simp [quadChars, hra]
    exact absurd (hg.2 '.' hdot) (by decide)

theorem breakCC_join_none (gs : List (List Char)) (h0 : ∀ g ∈ gs, g ≠ [])
    (h : ∀ g ∈ gs, ∀ c ∈ g, c ≠ ':') :
    breakColonColon (joinSep ':' gs) = none := by
  induction gs with
  | nil => rfl
  | cons g gs' ih =>
    cases gs' with
    | nil =>
      rw [joinSep_single]
      exact breakCC_none_of_no_colon g (h g (by simp))
    | cons g2 rest =>
      have hih := ih (fun x hx => h0 x (by simp [hx]))
        (fun x hx c hc => h x (by simp [hx]) c hc)
      obtain ⟨c2, g2', hg2⟩ : ∃ c2 g2', g2 = c2 :: g2' := by
        cases hg : g2 with
        | nil => exact absurd hg (h0 g2 (by simp))
        | cons c2 g2' => exact ⟨c2, g2', rfl⟩
      have hc2 : c2 ≠ ':' := h g2 (by simp) c2 (by simp [hg2])
      rw [joinSep_cons2, breakCC_prefix_no_colon g (h g (by simp)) _]
      have hcons : ∃ tl, joinSep ':' (g2 :: rest) = c2 :: tl := by
        cases rest with
        | nil => exact ⟨g2', by simp [joinSep_single, hg2]⟩
        | cons g3 rest' =>
          exact ⟨g2' ++ ':' :: joinSep ':' (g3 :: rest'), by
            simp [joinSep_cons2, hg2]⟩
      obtain ⟨tl, htl⟩ := hcons
      rw [htl, breakCC_colon_single c2 tl hc2, ← htl, hih]
      rfl

theorem ipv6Chars_full8 (gs : List (List Char)) (h8 : gs.length = 8)
    (hhex : ∀ g ∈ gs, isHexGroup g = true) :
    ipv6Chars (joinSep ':' gs) = true := by
  have hne : ∀ g ∈ gs, g ≠ [] := fun g hg => isHexGroup_ne_nil g (hhex g hg)
  have hnc : ∀ g ∈ gs, ∀ c ∈ g, c ≠ ':' :=
    fun g hg => isHexGroup_no_colon g (hhex g hg)
  have hgs0 : gs ≠ [] := by intro he; rw [he] at h8; simp at h8
  simp only [ipv6Chars, breakCC_join_none gs hne hnc, ipv6NoComp,
    splitSep_joinSep ':' gs hgs0 hnc, h8]
  simp [List.all_eq_true.mpr hhex]

theorem ipv6Chars_full6_v4 (gs : List (List Char)) (h6 : gs.length = 6)
    (hhex : ∀ g ∈ gs, isHexGroup g = true) (a b c d : Nat) (ha : a ≤ 255)
    (hb : b ≤ 255) (hc : c ≤ 255) (hd : d ≤ 255) :
    ipv6Chars (joinSep ':' (gs ++ [quadChars a b c d])) = true := by
  have hne : ∀ g ∈ gs ++ [quadChars a b c d], g ≠ [] := by
    intro g hg
    rcases List.mem_append.mp hg with h1 | h1
    · exact isHexGroup_ne_nil g (hhex g h1)
    · rcases List.mem_singleton.mp h1 with rfl
      exact quadChars_ne_nil a b c d
  have hnc : ∀ g ∈ gs ++ [quadChars a b c d], ∀ ch ∈ g, ch ≠ ':' := by
    intro g hg
    rcases List.mem_append.mp hg with h1 | h1
    · exact isHexGroup_no_colon g (hhex g h1)
    · rcases List.mem_singleton.mp h1 with rfl
      exact quadChars_no_colon a b c d ha hb hc hd
  simp only [ipv6Chars, breakCC_join_none _ hne hnc, ipv6NoComp,
    splitSep_joinSep ':' _ (by simp) hnc]
  rw [dropLast_single_append gs (quadChars a b c d),
    getLastD_single_append gs (quadChars a b c d) []]
  simp [h6, List.all_eq_true.mpr hhex, ipv4Chars_quad a b c d ha hb hc hd]

theorem ipv6Head_join (pre : List (List Char))
    (hhex : ∀ g ∈ pre, isHexGroup g = true) :
    ipv6Head (joinSep ':' pre) = some pre.length := by
  cases pre with
  | nil => rfl
  | cons g pre' =>
    have hne : ∀ g2 ∈ g :: pre', g2 ≠ [] :=
      fun g2 hg => isHexGroup_ne_nil g2 (hhex g2 hg)
    have hnc : ∀ g2 ∈ g :: pre', ∀ c ∈ g2, c ≠ ':' :=
      fun g2 hg => isHexGroup_no_colon g2 (hhex g2 hg)
    have hjn : joinSep ':' (g :: pre') ≠ [] := joinSep_ne_nil ':' _ (by simp) hne
    have hemp : (joinSep ':' (g :: pre')).isEmpty = false := by
      cases hj : joinSep ':' (g :: pre') with
      | nil => exact absurd hj hjn
      | cons x xs => rfl
    simp only [ipv6Head, hemp, Bool.false_eq_true, if_false,
      splitSep_joinSep ':' _ (by simp) hnc]
    simp [List.all_eq_true.mpr hhex]

theorem ipv6Tail_join (post : List (List Char))
    (hhex : ∀ g ∈ post, isHexGroup g = true) :
    ipv6Tail (joinSep ':' post) = some (post.length, false) := by
  cases post with
  | nil => rfl
  | cons g post' =>
    have hne : ∀ g2 ∈ g :: post', g2 ≠ [] :=
      fun g2 hg => isHexGroup_ne_nil g2 (hhex g2 hg)
    have hnc : ∀ g2 ∈ g :: post', ∀ c ∈ g2, c ≠ ':' :=
      fun g2 hg => isHexGroup_no_colon g2 (hhex g2 hg)
    have hjn : joinSep ':' (g :: post') ≠ [] := joinSep_ne_nil ':' _ (by simp) hne
    have hemp : (joinSep ':' (g :: post')).isEmpty = false := by
      cases hj : joinSep ':' (g :: post') with
      | nil => exact absurd hj hjn
      | cons x xs => rfl
    simp only [ipv6Tail, hemp, Bool.false_eq_true, if_false,
      splitSep_joinSep ':' _ (by simp) hnc]
    simp [List.all_eq_true.mpr hhex]

theorem ipv6Tail_join_v4 (post : List (List Char))
    (hhex : ∀ g ∈ post, isHexGroup g = true) (a b c d : Nat) (ha : a ≤ 255)
    (hb : b ≤ 255) (hc : c ≤ 255) (hd : d ≤ 255) :
    ipv6Tail (joinSep ':' (post ++ [quadChars a b c d]))
      = some (post.length, true) := by
  have hne : ∀ g ∈ post ++ [quadChars a b c d], g ≠ [] := by
    intro g hg
    rcases List.mem_append.mp hg with h1 | h1
    · exact isHexGroup_ne_nil g (hhex g h1)
    · rcases List.mem_singleton.mp h1 with rfl
      exact quadChars_ne_nil a b c d
  have hnc : ∀ g ∈ post ++ [quadChars a b c d], ∀ ch ∈ g, ch ≠ ':' := by
    intro g hg
    rcases List.mem_append.mp hg with h1 | h1
    · exact isHexGroup_no_colon g (hhex g h1)
    · rcases List.mem_singleton.mp h1 with rfl
      exact quadChars_no_colon a b c d ha hb hc hd
  have hjn : joinSep ':' (post ++ [quadChars a b c d]) ≠ [] :=
    joinSep_ne_nil ':' _ (by simp) hne
  have hemp : (joinSep ':' (post ++ [quadChars a b c d])).isEmpty = false := by
    cases hj : joinSep ':' (post ++ [quadChars a b c d]) with
    | nil => exact absurd hj hjn
    | cons x xs => rfl
  have hallfalse : ((post ++ [quadChars a b c d]).all isHexGroup) = false := by
    cases hall : (post ++ [quadChars a b c d]).all isHexGroup with
    | false => rfl
    | true =>
      exfalso
      have := List.all_eq_true.mp hall (quadChars a b c d) (by simp)
      rw [isHexGroup_quad_false a b c d] at this
      exact absurd this (by simp)
  simp only [ipv6Tail, hemp, Bool.false_eq_true, if_false,
    splitSep_joinSep ':' _ (by simp) hnc, hallfalse]
  rw [dropLast_single_append post (quadChars a b c d),
    getLastD_single_append post (quadChars a b c d) []]
  simp [List.all_eq_true.mpr hhex, ipv4Chars_quad a b c d ha hb hc hd]

theorem ipv6Chars_comp (pre post : List (List Char))
    (hsum : pre.length + post.length ≤ 7)
    (hpre : ∀ g ∈ pre, isHexGroup g = true)
    (hpost : ∀ g ∈ post, isHexGroup g = true) :
    ipv6Chars (joinSep ':' pre ++ ':' :: ':' :: joinSep ':' post) = true := by
  have hne : ∀ g ∈ pre, g ≠ [] := fun g hg => isHexGroup_ne_nil g (hpre g hg)
  have hnc : ∀ g ∈ pre, ∀ c ∈ g, c ≠ ':' :=
    fun g hg => isHexGroup_no_colon g (hpre g hg)
  simp only [ipv6Chars, breakCC_join pre hne hnc (joinSep ':' post),
    ipv6Head_join pre hpre, ipv6Tail_join post hpost]
  simp [hsum]

theorem ipv6Chars_comp_v4 (pre post : List (List Char))
    (hsum : pre.length + post.length ≤ 5)
    (hpre : ∀ g ∈ pre, isHexGroup g = true)
    (hpost : ∀ g ∈ post, isHexGroup g = true) (a b c d : Nat) (ha : a ≤ 255)
    (hb : b ≤ 255) (hc : c ≤ 255) (hd : d ≤ 255) :
    ipv6Chars (joinSep ':' pre ++ ':' :: ':' ::
      joinSep ':' (post ++ [quadChars a b c d])) = true := by
  have hne : ∀ g ∈ pre, g ≠ [] := fun g hg => isHexGroup_ne_nil g (hpre g hg)
  have hnc : ∀ g ∈ pre, ∀ c ∈ g, c ≠ ':' :=
    fun g hg => isHexGroup_no_colon g (hpre g hg)
  simp only [ipv6Chars, breakCC_join pre hne hnc _,
    ipv6Head_join pre hpre,
    ipv6Tail_join_v4 post hpost a b c d ha hb hc hd]
  simp [hsum]

theorem ipv4Chars_no_colon (l : List Char) (h : ipv4Chars l = true) :
    ∀ c ∈ l, c ≠ ':' := by
  intro c hc
  have hjoin : joinSep '.' (splitSep '.' l) = l := joinSep_splitSep '.' l
  cases hsp : splitSep '.' l with
  | nil => simp [ipv4Chars, hsp] at h
  | cons p1 t1 =>
    cases t1 with
    | nil => simp [ipv4Chars, hsp] at h
    | cons p2 t2 =>
      cases t2 with
      | nil => simp [ipv4Chars, hsp] at h
      | cons p3 t3 =>
        cases t3 with
        | nil => simp [ipv4Chars, hsp] at h
        | cons p4 t4 =>
          cases t4 with
          | cons p5 t5 => simp [ipv4Chars, hsp] at h
          | nil =>
            simp only [ipv4Chars, hsp, Bool.and_eq_true] at h
            obtain ⟨⟨⟨h1, h2⟩, h3⟩, h4⟩ := h
            rw [hsp] at hjoin
            rw [← hjoin] at hc
            rcases mem_joinSep '.' _ c hc with rfl | ⟨g, hg, hcg⟩
            · simp
            · have hoct : isOctet g = true := by
                simp only [List.mem_cons, List.not_mem_nil, or_false] at hg
                rcases hg with rfl | rfl | rfl | rfl <;> assumption
              exact isDigitChar_ne_colon c (isOctet_all_digits g hoct c hcg)

theorem ipv6Tail_cc_none (a b : List Char) :
    ipv6Tail (a ++ ':' :: ':' :: b) = none := by
  have hemp : (a ++ ':' :: ':' :: b).isEmpty = false := by
    cases ha : a ++ ':' :: ':' :: b with
    | nil => exact absurd ha (append_cons_ne_nil a ':' (':' :: b))
    | cons x xs => rfl
  have hmem : [] ∈ splitSep ':' (a ++ ':' :: ':' :: b) := splitSep_cc_mem_nil a b
  have hall : (splitSep ':' (a ++ ':' :: ':' :: b)).all isHexGroup = false := by
    cases h : (splitSep ':' (a ++ ':' :: ':' :: b)).all isHexGroup with
    | false => rfl
    | true =>
      exact absurd (List.all_eq_true.mp h [] hmem) (by decide)
  have hsecond : ((splitSep ':' (a ++ ':' :: ':' :: b)).dropLast.all isHexGroup
      && ipv4Chars ((splitSep ':' (a ++ ':' :: ':' :: b)).getLastD [])) = false := by
    obtain ⟨parts, hparts⟩ : ∃ parts, splitSep ':' (a ++ ':' :: ':' :: b) = parts :=
      ⟨_, rfl⟩
    rw [hparts] at hmem ⊢
    have hpne : parts ≠ [] := by
      intro he; rw [he] at hparts
      exact splitSep_ne_nil ':' _ hparts
    obtain ⟨init, lastg, hdecomp⟩ : ∃ init lastg, parts = init ++ [lastg] := by
      refine ⟨parts.dropLast, parts.getLast hpne, ?_⟩
      exact (List.dropLast_append_getLast hpne).symm
    rw [hdecomp] at hmem
    rcases List.mem_append.mp hmem with hin | hlast
    · have : (init ++ [lastg]).dropLast.all isHexGroup = false := by
        rw [dropLast_single_append]
        cases h : init.all isHexGroup with
        | false => rfl
        | true => exact absurd (List.all_eq_true.mp h [] hin) (by decide)
      rw [hdecomp, this]
      rfl
    · rcases List.mem_singleton.mp hlast with hl
      rw [hdecomp, getLastD_single_append init lastg [], ← hl]
      simp [ipv4Chars, splitSep]
  simp only [ipv6Tail, hemp, Bool.false_eq_true, if_false, hall, hsecond]

theorem ipv6Chars_two_cc (x y z : List Char) :
    ipv6Chars (x ++ ':' :: ':' :: (y ++ ':' :: ':' :: z)) = false := by
  cases hb : breakColonColon (x ++ ':' :: ':' :: (y ++ ':' :: ':' :: z)) with
  | none => exact absurd hb (breakCC_cc_ne_none x (y ++ ':' :: ':' :: z))
  | some pq =>
    obtain ⟨u, hq⟩ := breakCC_q_suffix x (y ++ ':' :: ':' :: z) pq.1 pq.2
      (by rw [hb])
    have hq2 : pq.2 = (u ++ y) ++ ':' :: ':' :: z := by simp [hq]
    have htail : ipv6Tail pq.2 = none := by
      rw [hq2]; exact ipv6Tail_cc_none (u ++ y) z
    cases hh : ipv6Head pq.1 <;>
      simp [ipv6Chars, hb, hh, htail]

theorem isIp_false_of (l : List Char) (h4 : ipv4Chars l = false)
    (h6 : ipv6Chars l = false) : isIp (some ⟨l⟩) = false := by
  simp [isIp, h4, h6]

theorem isIp_true_of_ipv6 (l : List Char) (hne : l ≠ [])
    (h6 : ipv6Chars l = true) : isIp (some ⟨l⟩) = true := by
  have hemp : l.isEmpty = false := by
    cases hl : l with
    | nil => exact absurd hl hne
    | cons c cs => rfl
  simp [isIp, hemp, h6]

theorem isIp_true_of_ipv4 (l : List Char) (hne : l ≠ [])
    (h4 : ipv4Chars l = true) : isIp (some ⟨l⟩) = true := by
  have hemp : l.isEmpty = false := by
    cases hl : l with
    | nil => exact absurd hl hne
    | cons c cs => rfl
  simp [isIp, hemp, h4]

theorem getXff_ok_some (v : JsVal) (s : String)
    (h : getClientIpFromXForwardedFor v = Except.ok (some s)) :
    isIp (some s) = true := by
  cases v with
  | undef => simp [getClientIpFromXForwardedFor, jsTruthy] at h
  | jsNull => simp [getClientIpFromXForwardedFor, jsTruthy] at h
  | num n =>
    by_cases hn : n = 0
    · subst hn; simp [getClientIpFromXForwardedFor, jsTruthy] at h
    · simp [getClientIpFromXForwardedFor, jsTruthy, hn] at h
  | bool b => cases b <;> simp [getClientIpFromXForwardedFor, jsTruthy] at h
  | str s0 =>
    cases he : s0.data.isEmpty with
    | true => simp [getClientIpFromXForwardedFor, jsTruthy, he] at h
    | false =>
      simp [getClientIpFromXForwardedFor, jsTruthy, he] at h
      obtain ⟨a, hfind, hs⟩ := h
      have hp := List.find?_some hfind
      simp only [Function.comp] at hp
      rw [hs] at hp
      exact hp

theorem isIp_some_of_true (v : Option String) (h : isIp v = true) :
    ∃ s, v = some s := by
  cases v with
  | none => simp [isIp] at h
  | some s => exact ⟨s, rfl⟩

theorem firstSuccess_direct (h : String → Option String) (name : String)
    (rest : List (String × HeaderKind)) :
    firstSuccess h ((name, HeaderKind.direct) :: rest)
      = if isIp (headersGet h name) then Except.ok (headersGet h name)
        else firstSuccess h rest := by
  cases hv : headersGet h name with
  | none => simp [firstSuccess, tryHeader, hv, isIp]
  | some s =>
    cases hi : isIp (some s) with
    | true => simp [firstSuccess, tryHeader, hv, hi]
    | false => simp [firstSuccess, tryHeader, hv, hi]

theorem firstSuccess_fwd (h : String → Option String) (name : String)
    (rest : List (String × HeaderKind)) :
    firstSuccess h ((name, HeaderKind.forwardedFor) :: rest)
      = match getClientIpFromXForwardedFor (toJsVal (headersGet h name)) with
        | Except.error e => Except.error e
        | Except.ok r => if isIp r then Except.ok r else firstSuccess h rest := by
  cases hx : getClientIpFromXForwardedFor (toJsVal (headersGet h name)) with
  | error e => simp [firstSuccess, tryHeader, hx]
  | ok r =>
    cases r with
    | none => simp [firstSuccess, tryHeader, hx, isIp]
    | some s =>
      cases hi : isIp (some s) with
      | true => simp [firstSuccess, tryHeader, hx, hi]
      | false => simp [firstSuccess, tryHeader, hx, hi]

theorem getClientIp_eq_resolveOrdered (req : Request) :
    getClientIp req = resolveOrdered req := by
  obtain ⟨hs⟩ := req
  cases hs with
  | none => rfl
  | some h =>
    simp only [getClientIp, resolveOrdered, headerChain]
    rw [firstSuccess_direct, firstSuccess_fwd, firstSuccess_direct,
      firstSuccess_direct, firstSuccess_direct, firstSuccess_direct,
      firstSuccess_direct, firstSuccess_direct, firstSuccess_direct,
      firstSuccess_direct, firstSuccess_direct, firstSuccess_direct]
    simp only [firstSuccess]
    cases hi1 : isIp (headersGet h "x-client-ip") with
    | true =>
      obtain ⟨s, hs1⟩ := isIp_some_of_true _ hi1
      rw [hs1]
      rfl
    | false =>
    cases hx : getClientIpFromXForwardedFor (toJsVal (headersGet h "x-forwarded-for")) with
    | error e => rfl
    | ok r =>
    dsimp only
    cases hir : isIp r with
    | true =>
      obtain ⟨s, hs1⟩ := isIp_some_of_true _ hir
      subst hs1
      rfl
    | false =>
    cases hi3 : isIp (headersGet h "cf-connecting-ip") with
    | true =>
      obtain ⟨s, hs1⟩ := isIp_some_of_true _ hi3
      rw [hs1]
      rfl
    | false =>
    cases hi4 : isIp (headersGet h "do-connecting-ip") with
    | true =>
      obtain ⟨s, hs1⟩ := isIp_some_of_true _ hi4
      rw [hs1]
      rfl
    | false =>
    cases hi5 : isIp (headersGet h "fastly-client-ip") with
    | true =>
      obtain ⟨s, hs1⟩ := isIp_some_of_true _ hi5
      rw [hs1]
      rfl
    | false =>
    cases hi6 : isIp (headersGet h "true-client-ip") with
    | true =>
      obtain ⟨s, hs1⟩ := isIp_some_of_true _ hi6
      rw [hs1]
      rfl
    | false =>
    cases hi7 : isIp (headersGet h "x-real-ip") with
    | true =>
      obtain ⟨s, hs1⟩ := isIp_some_of_true _ hi7
      rw [hs1]
      rfl
    | false =>
    cases hi8 : isIp (headersGet h "x-cluster-client-ip") with
    | true =>
      obtain ⟨s, hs1⟩ := isIp_some_of_true _ hi8
      rw [hs1]
      rfl
    | false =>
    cases hi9 : isIp (headersGet h "x-forwarded") with
    | true =>
      obtain ⟨s, hs1⟩ := isIp_some_of_true _ hi9
      rw [hs1]
      rfl
    | false =>
    cases hi10 : isIp (headersGet h "forwarded-for") with
    | true =>
      obtain ⟨s, hs1⟩ := isIp_some_of_true _ hi10
      rw [hs1]
      rfl
    | false =>
    cases hi11 : isIp (headersGet h "forwarded") with
    | true =>
      obtain ⟨s, hs1⟩ := isIp_some_of_true _ hi11
      rw [hs1]
      rfl
    | false =>
    cases hi12 : isIp (headersGet h "x-appengine-user-ip") with
    | true =>
      obtain ⟨s, hs1⟩ := isIp_some_of_true _ hi12
      rw [hs1]
      rfl
    | false => rfl

theorem firstSuccess_ok_some (h : String → Option String)
    (chain : List (String × HeaderKind)) (s : String)
    (hfs : firstSuccess h chain = Except.ok (some s)) : isIp (some s) = true := by
  induction chain with
  | nil => simp [firstSuccess] at hfs
  | cons entry rest ih =>
    cases hth : tryHeader h entry with
    | error e =>
      simp only [firstSuccess, hth] at hfs
      exact Except.noConfusion hfs
    | ok r =>
      cases r with
      | none =>
        simp only [firstSuccess, hth] at hfs
        exact ih hfs
      | some ip =>
        simp only [firstSuccess, hth, Except.ok.injEq, Option.some.injEq] at hfs
        have hval : isIp (some ip) = true := by
          obtain ⟨name, kind⟩ := entry
          cases kind with
          | direct =>
            simp only [tryHeader] at hth
            cases hc : isIp (headersGet h name) with
            | false => rw [hc] at hth; simp at hth
            | true =>
              rw [hc] at hth
              simp at hth
              rw [hth] at hc
              exact hc
          | forwardedFor =>
            simp only [tryHeader] at hth
            cases hx : getClientIpFromXForwardedFor (toJsVal (headersGet h name)) with
            | error e => rw [hx] at hth; simp at hth
            | ok r2 =>
              rw [hx] at hth
              dsimp only at hth
              cases hir : isIp r2 with
              | false => rw [hir] at hth; simp at hth
              | true =>
                rw [hir] at hth
                simp at hth
                rw [hth] at hir
                exact hir
        rw [← hfs]
        exact hval

theorem resolveOrdered_ok_some (req : Request) (s : String)
    (h : resolveOrdered req = Except.ok (some s)) : isIp (some s) = true := by
  obtain ⟨hs⟩ := req
  cases hs with
  | none => simp [resolveOrdered] at h
  | some hm =>
    simp only [resolveOrdered] at h
    cases hfs : firstSuccess hm headerChain with
    | error e => rw [hfs] at h; simp at h
    | ok r =>
      cases r with
      | some ip =>
        rw [hfs] at h
        simp at h
        rw [← h]
        exact firstSuccess_ok_some hm headerChain ip hfs
      | none =>
        rw [hfs] at h
        cases hc : isIp (headersGet hm "Cf-Pseudo-IPv4") with
        | false => rw [hc] at h; simp at h
        | true =>
          rw [hc] at h
          simp at h
          rw [h] at hc
          exact hc

/-- Claim C1: for every header source, the Resolver never returns a string
rejected by the Address Validator — a successful result is either the
not-found sentinel (`none`) or a string accepted by `isIp`. -/
theorem claim_resolver_validates (req : Request) (s : String)
    (h : getClientIp req = Except.ok (some s)) : isIp (some s) = true :=
  resolveOrdered_ok_some req s ((getClientIp_eq_resolveOrdered req).symm.trans h)

/-- Witness for C1 at a concrete request carrying x-client-ip 1.2.3.4. -/
theorem claim_resolver_validates_witness : isIp (some "1.2.3.4") = true :=
  claim_resolver_validates
    ⟨some (fun n => if n = "x-client-ip" then some "1.2.3.4" else none)⟩
    "1.2.3.4" rfl

/-- Claim C2 counterexample: the JS number 0 is a present, non-string
input, yet the Decomposer returns the sentinel instead of raising — the
falsy guard `if (!value) return null` runs before the `typeof` check. -/
theorem claim_invalid_input_counterexample :
    getClientIpFromXForwardedFor (JsVal.num 0) = Except.ok none := rfl

/-- Claim C2 (amended): every present TRUTHY non-string input raises the
InvalidInputType error, and this is the only error the subsystem raises;
falsy input (absent, null, the empty string — and also falsy non-string
values such as the number 0 or false) returns the sentinel without
raising. -/
theorem claim_invalid_input_type :
    (∀ v : JsVal, jsTruthy v = true → (∀ s, v ≠ JsVal.str s) →
      getClientIpFromXForwardedFor v
        = Except.error ("Expected a string, got \"" ++ jsTypeof v ++ "\"")) ∧
    (∀ v : JsVal, jsTruthy v = false →
      getClientIpFromXForwardedFor v = Except.ok none) ∧
    (∀ (v : JsVal) (e : String),
      getClientIpFromXForwardedFor v = Except.error e →
      jsTruthy v = true ∧ (∀ s, v ≠ JsVal.str s) ∧
        e = "Expected a string, got \"" ++ jsTypeof v ++ "\"") := by
  refine ⟨?_, ?_, ?_⟩
  · intro v ht hns
    cases v with
    | str s => exact absurd rfl (hns s)
    | undef => simp [jsTruthy] at ht
    | jsNull => simp [jsTruthy] at ht
    | num n => simp [getClientIpFromXForwardedFor, ht]
    | bool b => simp [getClientIpFromXForwardedFor, ht]
  · intro v ht
    simp [getClientIpFromXForwardedFor, ht]
  · intro v e h
    cases v with
    | undef => simp [getClientIpFromXForwardedFor, jsTruthy] at h
    | jsNull => simp [getClientIpFromXForwardedFor, jsTruthy] at h
    | num n =>
      by_cases hn : n = 0
      · subst hn; simp [getClientIpFromXForwardedFor, jsTruthy] at h
      · refine ⟨by simp [jsTruthy, hn], fun _ hs => JsVal.noConfusion hs, ?_⟩
        simp [getClientIpFromXForwardedFor, jsTruthy, hn] at h
        exact h.symm
    | bool b =>
      cases b with
      | false => simp [getClientIpFromXForwardedFor, jsTruthy] at h
      | true =>
        refine ⟨rfl, fun _ hs => JsVal.noConfusion hs, ?_⟩
        simp [getClientIpFromXForwardedFor, jsTruthy] at h
        exact h.symm
    | str s =>
      cases he : s.data.isEmpty with
      | true => simp [getClientIpFromXForwardedFor, jsTruthy, he] at h
      | false => simp [getClientIpFromXForwardedFor, jsTruthy, he] at h

/-- Witness for C2 at the truthy non-string input 42. -/
theorem claim_invalid_input_type_witness :
    getClientIpFromXForwardedFor (JsVal.num 42)
      = Except.error ("Expected a string, got \"" ++ jsTypeof (JsVal.num 42) ++ "\"") :=
  claim_invalid_input_type.1 (JsVal.num 42) rfl (fun _ h => JsVal.noConfusion h)

/-- Claim C3: the Resolver is exactly the ordered-table walk over the
fixed priority list of the spec (with the cf-pseudo-ipv4 fallback last),
short-circuiting on the first success; in particular with both
x-client-ip 9.9.9.9 and x-forwarded-for 1.1.1.1 present it returns
9.9.9.9. -/
theorem claim_priority_order :
    (∀ req : Request, getClientIp req = resolveOrdered req) ∧
    getClientIp ⟨some (fun n =>
      if n = "x-client-ip" then some "9.9.9.9"
      else if n = "x-forwarded-for" then some "1.1.1.1" else none)⟩
      = Except.ok (some "9.9.9.9") :=
  ⟨getClientIp_eq_resolveOrdered, rfl⟩

/-- Claim C9: the Address Validator returns false on nullish input
(`none` models both JS undefined and null), on the empty string and on
the literal string "unknown"; being a total Bool-valued function it
raises nothing. -/
theorem claim_validator_nullish :
    isIp none = false ∧ isIp (some "") = false ∧
      isIp (some "unknown") = false := by
  refine ⟨rfl, rfl, by decide⟩

/-- Claim C10: a non-null Decomposer result always satisfies the Address
Validator; hence the re-validation by the Resolver of that result is
equivalent to a non-null check, and a non-null Decomposer result is
returned outright (when x-client-ip did not already succeed), regardless
of all lower-priority headers. -/
theorem claim_xff_postcondition :
    (∀ (v : JsVal) (s : String),
      getClientIpFromXForwardedFor v = Except.ok (some s) →
        isIp (some s) = true) ∧
    (∀ (v : JsVal) (r : Option String),
      getClientIpFromXForwardedFor v = Except.ok r →
        (isIp r = true ↔ r ≠ none)) ∧
    (∀ (h : String → Option String) (s : String),
      isIp (headersGet h "x-client-ip") = false →
      getClientIpFromXForwardedFor (toJsVal (headersGet h "x-forwarded-for"))
        = Except.ok (some s) →
      getClientIp ⟨some h⟩ = Except.ok (some s)) := by
  refine ⟨getXff_ok_some, ?_, ?_⟩
  · intro v r h
    cases r with
    | none => simp [isIp]
    | some s => simp [getXff_ok_some v s h]
  · intro h s h1 hx
    simp only [getClientIp, h1, hx]
    simp [getXff_ok_some _ _ hx]

/-- Witness for C10 at a request whose only header is
x-forwarded-for 1.1.1.1. -/
theorem claim_xff_postcondition_witness :
    getClientIp ⟨some (fun n =>
      if n = "x-forwarded-for" then some "1.1.1.1" else none)⟩
      = Except.ok (some "1.1.1.1") :=
  claim_xff_postcondition.2.2
    (fun n => if n = "x-forwarded-for" then some "1.1.1.1" else none)
    "1.1.1.1" rfl rfl

/-- Claim C4: on any comma-separated forwarded-for value, the Decomposer
returns the first cleaned token (scanning left-to-right) accepted by the
Address Validator; resolving "unknown, 70.41.3.18" yields 70.41.3.18 and
resolving "203.0.113.5, 70.41.3.18, 150.172.238.178" yields 203.0.113.5. -/
theorem claim_xff_scan :
    (∀ tokens : List (List Char), (∀ t ∈ tokens, ∀ c ∈ t, c ≠ ',') →
      getClientIpFromXForwardedFor (JsVal.str ⟨joinSep ',' tokens⟩)
        = Except.ok ((tokens.map (fun t => cleanToken ⟨t⟩)).find?
            (fun ip => isIp (some ip)))) ∧
    getClientIp ⟨some (fun n =>
      if n = "x-forwarded-for" then some "unknown, 70.41.3.18" else none)⟩
      = Except.ok (some "70.41.3.18") ∧
    getClientIp ⟨some (fun n =>
      if n = "x-forwarded-for" then
        some "203.0.113.5, 70.41.3.18, 150.172.238.178"
      else none)⟩
      = Except.ok (some "203.0.113.5") := by
  refine ⟨?_, rfl, rfl⟩
  intro tokens hnc
  by_cases hj : joinSep ',' tokens = []
  · rcases joinSep_eq_nil ',' tokens hj with h | h <;> subst h <;> rfl
  · have hne : tokens ≠ [] := fun h0 => hj (by rw [h0]; rfl)
    have hsplit := splitSep_joinSep ',' tokens hne hnc
    have hemp : (joinSep ',' tokens).isEmpty = false := by
      cases hjj : joinSep ',' tokens with
      | nil => exact absurd hjj hj
      | cons c rest => rfl
    simp [getClientIpFromXForwardedFor, jsTruthy, hemp, hsplit]

/-- Witness for C4 at the token list ["1", "2"]. -/
theorem claim_xff_scan_witness :
    getClientIpFromXForwardedFor (JsVal.str ⟨joinSep ',' [['1'], ['2']]⟩)
      = Except.ok (([['1'], ['2']].map
          (fun t => cleanToken ⟨t⟩)).find? (fun ip => isIp (some ip))) :=
  claim_xff_scan.1 [['1'], ['2']] (by decide)

/-- Claim C5: in the token-cleaning step, a trimmed token whose
colon-split has exactly two parts (equivalently: exactly one colon) is
replaced by the part before the colon, any other token is kept whole
(trimmed); resolving x-forwarded-for "203.0.113.5:4711, 70.41.3.18"
returns "203.0.113.5". -/
theorem claim_port_strip :
    (∀ (t : String) (a b : List Char), (∀ c ∈ a, c ≠ ':') →
      (∀ c ∈ b, c ≠ ':') → trimChars t.data = a ++ ':' :: b →
      cleanToken t = ⟨a⟩) ∧
    (∀ t : String, (trimChars t.data).count ':' ≠ 1 →
      cleanToken t = ⟨trimChars t.data⟩) ∧
    getClientIp ⟨some (fun n =>
      if n = "x-forwarded-for" then some "203.0.113.5:4711, 70.41.3.18"
      else none)⟩
      = Except.ok (some "203.0.113.5") := by
  refine ⟨?_, ?_, rfl⟩
  · intro t a b hna hnb htrim
    have hsp : splitSep ':' (trimChars t.data) = [a, b] := by
      rw [htrim, splitSep_append ':' a b hna, splitSep_no_sep ':' b hnb]
    have hany : (trimChars t.data).any (fun c => c == ':') = true := by
      rw [htrim]
      refine List.any_eq_true.mpr ⟨':', ?_, by simp⟩
      simp
    simp [cleanToken, hany, hsp]
  · intro t hcount
    cases hany : (trimChars t.data).any (fun c => c == ':') with
    | false => simp [cleanToken, hany]
    | true =>
      have hlen : (splitSep ':' (trimChars t.data)).length ≠ 2 := by
        rw [length_splitSep]; omega
      simp [cleanToken, hany, hlen]

/-- Witness for C5 at the token "1:2". -/
theorem claim_port_strip_witness : cleanToken "1:2" = ⟨['1']⟩ :=
  claim_port_strip.1 "1:2" ['1'] ['2'] (by decide) (by decide) (by decide)

/-- Claim C6: with no header source at all the Resolver returns the
not-found sentinel immediately, and with a header source in which no
listed header holds a valid IP (the forwarded-for decomposition included)
and cf-pseudo-ipv4 is absent, it returns the sentinel as a normal value
(`Except.ok`), not an error. -/
theorem claim_none_found :
    (getClientIp ⟨none⟩ = Except.ok none) ∧
    (∀ h : String → Option String,
      isIp (headersGet h "x-client-ip") = false →
      getClientIpFromXForwardedFor (toJsVal (headersGet h "x-forwarded-for"))
        = Except.ok none →
      isIp (headersGet h "cf-connecting-ip") = false →
      isIp (headersGet h "do-connecting-ip") = false →
      isIp (headersGet h "fastly-client-ip") = false →
      isIp (headersGet h "true-client-ip") = false →
      isIp (headersGet h "x-real-ip") = false →
      isIp (headersGet h "x-cluster-client-ip") = false →
      isIp (headersGet h "x-forwarded") = false →
      isIp (headersGet h "forwarded-for") = false →
      isIp (headersGet h "forwarded") = false →
      isIp (headersGet h "x-appengine-user-ip") = false →
      headersGet h "Cf-Pseudo-IPv4" = none →
      getClientIp ⟨some h⟩ = Except.ok none) := by
  refine ⟨rfl, ?_⟩
  intro h h1 hx h3 h4 h5 h6 h7 h8 h9 h10 h11 h12 hcf
  have hnone : isIp none = false := rfl
  simp [getClientIp, h1, hx, h3, h4, h5, h6, h7, h8, h9, h10, h11, h12, hcf,
    hnone]

/-- Witness for C6 at the empty header map. -/
theorem claim_none_found_witness :
    getClientIp ⟨some (fun _ => none)⟩ = Except.ok none :=
  claim_none_found.2 (fun _ => none) rfl rfl rfl rfl rfl rfl rfl rfl rfl rfl
    rfl rfl rfl

/-- Claim C7: the Address Validator accepts every dotted quad of four
canonical decimal octets in 0–255, and rejects every dot-joined list of
decimal segments whose segment count differs from four or in which some
segment exceeds 255; partial substring matches (extra characters before
or after a quad) do not count. -/
theorem claim_ipv4_grammar :
    (∀ a b c d : Nat, a ≤ 255 → b ≤ 255 → c ≤ 255 → d ≤ 255 →
      isIp (some ⟨quadChars a b c d⟩) = true) ∧
    (∀ segs : List (List Char),
      (∀ t ∈ segs, t ≠ [] ∧ ∀ c ∈ t, isDigitChar c = true) →
      (segs.length ≠ 4 ∨ ∃ t ∈ segs, 255 < decValue t) →
      isIp (some ⟨joinSep '.' segs⟩) = false) ∧
    isIp (some "a1.2.3.4") = false ∧ isIp (some "1.2.3.4a") = false := by
  refine ⟨?_, ?_, by decide, by decide⟩
  · intro a b c d ha hb hc hd
    exact isIp_true_of_ipv4 _ (quadChars_ne_nil a b c d)
      (ipv4Chars_quad a b c d ha hb hc hd)
  · intro segs hdig hbad
    by_cases hseg0 : segs = []
    · subst hseg0
      rfl
    · have hnodot : ∀ t ∈ segs, ∀ c ∈ t, c ≠ '.' :=
        fun t ht c hc => isDigitChar_ne_dot c ((hdig t ht).2 c hc)
      have hsplit := splitSep_joinSep '.' segs hseg0 hnodot
      have hoctF : ∀ t : List Char, 255 < decValue t → isOctet t = false := by
        intro t hv
        cases ho : isOctet t with
        | false => rfl
        | true =>
          have := isOctet_val_le t ho
          omega
      have hnocolon : ∀ c ∈ joinSep '.' segs, c ≠ ':' := by
        intro c hc
        rcases mem_joinSep '.' segs c hc with rfl | ⟨g, hg, hcg⟩
        · simp
        · exact isDigitChar_ne_colon c ((hdig g hg).2 c hcg)
      have h6 : ipv6Chars (joinSep '.' segs) = false := by
        simp only [ipv6Chars, breakCC_none_of_no_colon _ hnocolon, ipv6NoComp,
          splitSep_no_sep ':' _ hnocolon]
        simp
      have h4 : ipv4Chars (joinSep '.' segs) = false := by
        simp only [ipv4Chars, hsplit]
        rcases hbad with hlen | ⟨t, ht, hval⟩
        · rcases segs with _ | ⟨t1, _ | ⟨t2, _ | ⟨t3, _ | ⟨t4, _ | ⟨t5, ts⟩⟩⟩⟩⟩
          · rfl
          · rfl
          · rfl
          · rfl
          · simp at hlen
          · rfl
        · rcases segs with _ | ⟨t1, _ | ⟨t2, _ | ⟨t3, _ | ⟨t4, _ | ⟨t5, ts⟩⟩⟩⟩⟩
          · rfl
          · rfl
          · rfl
          · rfl
          · simp only [List.mem_cons, List.not_mem_nil, or_false] at ht
            rcases ht with rfl | rfl | rfl | rfl <;> simp [hoctF t hval]
          · rfl
      exact isIp_false_of _ h4 h6

/-- Witness for C7 at the quad 203.0.113.5. -/
theorem claim_ipv4_grammar_witness : isIp (some ⟨quadChars 203 0 113 5⟩) = true :=
  claim_ipv4_grammar.1 203 0 113 5 (by decide) (by decide) (by decide)
    (by decide)

/-- Claim C8: the Address Validator accepts IPv6 literals —
eight hex groups in full notation, compressed notation with one
double-colon and up to seven expressed groups, and either form with an
embedded IPv4 tail (six leading groups uncompressed, or up to five
expressed groups with a double-colon); hex groups are case-insensitive
(the concrete mixed-case literal below).  Every string containing two
separated double-colons is rejected. -/
theorem claim_ipv6_grammar :
    (∀ gs : List (List Char), gs.length = 8 →
      (∀ g ∈ gs, isHexGroup g = true) →
      isIp (some ⟨joinSep ':' gs⟩) = true) ∧
    (∀ pre post : List (List Char), pre.length + post.length ≤ 7 →
      (∀ g ∈ pre, isHexGroup g = true) → (∀ g ∈ post, isHexGroup g = true) →
      isIp (some ⟨joinSep ':' pre ++ ':' :: ':' :: joinSep ':' post⟩) = true) ∧
    (∀ gs : List (List Char), gs.length = 6 →
      (∀ g ∈ gs, isHexGroup g = true) →
      ∀ a b c d : Nat, a ≤ 255 → b ≤ 255 → c ≤ 255 → d ≤ 255 →
      isIp (some ⟨joinSep ':' (gs ++ [quadChars a b c d])⟩) = true) ∧
    (∀ pre post : List (List Char), pre.length + post.length ≤ 5 →
      (∀ g ∈ pre, isHexGroup g = true) → (∀ g ∈ post, isHexGroup g = true) →
      ∀ a b c d : Nat, a ≤ 255 → b ≤ 255 → c ≤ 255 → d ≤ 255 →
      isIp (some ⟨joinSep ':' pre ++ ':' :: ':' ::
        joinSep ':' (post ++ [quadChars a b c d])⟩) = true) ∧
    (∀ x y z : List Char,
      isIp (some ⟨x ++ ':' :: ':' :: (y ++ ':' :: ':' :: z)⟩) = false) ∧
    isIp (some "ABCD:ef01:2345:6789:abcd:EF01:2345:6789") = true := by
  refine ⟨?_, ?_, ?_, ?_, ?_, by decide⟩
  · intro gs h8 hhex
    refine isIp_true_of_ipv6 _ ?_ (ipv6Chars_full8 gs h8 hhex)
    apply joinSep_ne_nil
    · intro he; rw [he] at h8; simp at h8
    · exact fun g hg => isHexGroup_ne_nil g (hhex g hg)
  · intro pre post hsum hpre hpost
    refine isIp_true_of_ipv6 _ ?_ (ipv6Chars_comp pre post hsum hpre hpost)
    exact append_cons_ne_nil _ ':' _
  · intro gs h6 hhex a b c d ha hb hc hd
    refine isIp_true_of_ipv6 _ ?_
      (ipv6Chars_full6_v4 gs h6 hhex a b c d ha hb hc hd)
    apply joinSep_ne_nil
    · simp
    · intro g hg
      rcases List.mem_append.mp hg with h1 | h1
      · exact isHexGroup_ne_nil g (hhex g h1)
      · rcases List.mem_singleton.mp h1 with rfl
        exact quadChars_ne_nil a b c d
  · intro pre post hsum hpre hpost a b c d ha hb hc hd
    refine isIp_true_of_ipv6 _ ?_
      (ipv6Chars_comp_v4 pre post hsum hpre hpost a b c d ha hb hc hd)
    exact append_cons_ne_nil _ ':' _
  · intro x y z
    apply isIp_false_of
    · cases h4 : ipv4Chars (x ++ ':' :: ':' :: (y ++ ':' :: ':' :: z)) with
      | false => rfl
      | true => exact absurd rfl (ipv4Chars_no_colon _ h4 ':' (by simp))
    · exact ipv6Chars_two_cc x y z

/-- Witness for C8 at the compressed literal built from the single group
"1" and an empty tail, i.e. the string "1::". -/
theorem claim_ipv6_grammar_witness :
    isIp (some ⟨joinSep ':' [['1']] ++ ':' :: ':' :: joinSep ':' []⟩) = true :=
  claim_ipv6_grammar.2.1 [['1']] [] (by decide) (by decide) (by decide)
